import Mathlib

/-
Verification of the gmx_random pseudo-random number generator interface
(include/gmx_random.h) and of the molecular-property merge tool
(src/alexandria/g_merge_mp.c).

The repository ships only the header of the random-number module, so the
engine itself (a standard MT19937 Mersenne twister, per the specification,
which defers to the reference algorithm) is modelled here from the
specification: word size 32 bits, N = 624 state words, tap offsets 1 and
397, twist mask 0x9908b0df, the standard tempering constants, the standard
scalar seed expansion with multiplier 1812433253, and the reference
array-seeding procedure with default seed 19650218.

Machine words are modelled as natural numbers reduced modulo 2^32 at every
operation that can overflow, exactly as 32-bit C arithmetic does.
-/

namespace GmxRandom

/-- Modelled from the spec: state of the Mersenne twister engine, the field
mt being the vector of N = 624 unsigned 32-bit words (represented as a
function from positions, only positions below 624 are meaningful) and mti
the cursor into it, range 0..624, where 624 signals that the state vector
is exhausted and must be regenerated on the next draw. -/
structure MTState where
  mt : Nat → Nat
  mti : Nat

/-- All words of a state function are 32-bit values. -/
def Bounded32 (f : Nat → Nat) : Prop := ∀ i, f i < 4294967296

/-- Modelled from the spec: the combination of the upper bit of one word
with the lower 31 bits of the next, feeding the twisted recurrence. -/
def mtY (a b : Nat) : Nat := (a &&& 2147483648) ||| (b &&& 2147483647)

/-- Modelled from the spec: the twist contribution, shifting the combined
word right by one and conditionally xoring the matrix constant 0x9908b0df
when the low bit is set. -/
def mtTw (a b : Nat) : Nat :=
  (mtY a b >>> 1) ^^^ (if mtY a b % 2 = 1 then 2567483615 else 0)

/-- Modelled from the spec: regenerated word at positions 0..226, where the
tap at offset 397 still reads the old state vector. -/
def twistA (f : Nat → Nat) (i : Nat) : Nat :=
  f (i + 397) ^^^ mtTw (f i) (f (i + 1))

/-- Modelled from the spec: regenerated word at positions 227..453, where
the tap at offset 397 wraps around and reads an already regenerated word. -/
def twistB (f : Nat → Nat) (i : Nat) : Nat :=
  twistA f (i - 227) ^^^ mtTw (f i) (f (i + 1))

/-- Modelled from the spec: regenerated word at positions 454..622. -/
def twistC (f : Nat → Nat) (i : Nat) : Nat :=
  twistB f (i - 227) ^^^ mtTw (f i) (f (i + 1))

/-- Modelled from the spec: regeneration of the whole state vector by the
twisted recurrence, in the in-place evaluation order of the reference
algorithm: positions at and beyond 227 read the already regenerated word
227 places back, and the last position reads the regenerated words 0
and 396. -/
def twist (f : Nat → Nat) (i : Nat) : Nat :=
  if i < 227 then twistA f i
  else if i < 454 then twistB f i
  else if i < 623 then twistC f i
  else twistB f 396 ^^^ mtTw (f 623) (twistA f 0)

/-- Modelled from the spec: the standard tempering transform applied to
every raw state word before it is returned. -/
def temper (y : Nat) : Nat :=
  let y1 := y ^^^ (y >>> 11)
  let y2 := y1 ^^^ ((y1 <<< 7) &&& 2636928640)
  let y3 := y2 ^^^ ((y2 <<< 15) &&& 4022730752)
  y3 ^^^ (y3 >>> 18)

/-- Modelled from the spec: when the cursor has reached N = 624 the state
vector is regenerated and the cursor reset to 0; otherwise the state is
left untouched. -/
def regenerated (s : MTState) : MTState :=
  if 624 ≤ s.mti then MTState.mk (twist s.mt) 0 else s

/-- Modelled from the spec: gmx_rng_uniform_uint32 draws the word under the
cursor (after regenerating an exhausted vector), tempers it, and advances
the cursor. -/
def uniformU32 (s : MTState) : Nat × MTState :=
  (temper ((regenerated s).mt (regenerated s).mti),
   MTState.mk (regenerated s).mt ((regenerated s).mti + 1))

/-- Modelled from the spec: gmx_rng_uniform_real scales the tempered word
by the divisor 2^32 = 4294967296, which strictly exceeds the largest
representable word 4294967295. -/
def uniformReal (s : MTState) : Rat × MTState :=
  (((uniformU32 s).1 : Rat) / 4294967296, (uniformU32 s).2)

/-- Modelled from the spec: the scalar seed expansion of gmx_rng_init,
word i being derived from word i - 1 by the linear-congruential style
formula with multiplier 1812433253 and the xor of the top 30-bit shift. -/
def initAt (seed : Nat) : Nat → Nat
  | 0 => seed % 4294967296
  | i + 1 =>
      (1812433253 * (initAt seed i ^^^ (initAt seed i >>> 30)) + (i + 1)) %
        4294967296

/-- Modelled from the spec: gmx_rng_init builds the full state vector from
a single 32-bit seed and marks the vector exhausted so that the first draw
regenerates it. -/
def initState (seed : Nat) : MTState := MTState.mk (initAt seed) 624

/-- Modelled from the spec: one step of the forward mixing pass of the
reference array-seeding procedure, combining one supplied seed word into
the state, with the in-place wraparound that copies word 623 into word 0
when the cursor passes the end. -/
def arrayStep1 (key : List Nat) (f : Nat → Nat) (i j : Nat) :
    (Nat → Nat) × Nat × Nat :=
  let v := ((f i ^^^ (((f (i - 1) ^^^ (f (i - 1) >>> 30)) * 1664525) %
              4294967296)) + key.getD j 0 + j) % 4294967296
  let f1 := fun x => if x = i then v else f x
  let j1 := if key.length ≤ j + 1 then 0 else j + 1
  if 624 ≤ i + 1 then ((fun x => if x = 0 then f1 623 else f1 x), 1, j1)
  else (f1, i + 1, j1)

/-- Modelled from the spec: the forward mixing pass of the reference
array-seeding procedure, iterated k times. -/
def arrayLoop1 (key : List Nat) : Nat → (Nat → Nat) → Nat → Nat →
    (Nat → Nat) × Nat
  | 0, f, i, _ => (f, i)
  | k + 1, f, i, j =>
      arrayLoop1 key k (arrayStep1 key f i j).1 (arrayStep1 key f i j).2.1
        (arrayStep1 key f i j).2.2

/-- Modelled from the spec: one step of the backward re-randomizing pass of
the reference array-seeding procedure, with multiplier 1566083941 and the
subtraction of the position performed in 32-bit wraparound arithmetic. -/
def arrayStep2 (f : Nat → Nat) (i : Nat) : (Nat → Nat) × Nat :=
  let v := (((f i ^^^ (((f (i - 1) ^^^ (f (i - 1) >>> 30)) * 1566083941) %
              4294967296)) + 4294967296 - i % 4294967296) % 4294967296)
  let f1 := fun x => if x = i then v else f x
  if 624 ≤ i + 1 then ((fun x => if x = 0 then f1 623 else f1 x), 1)
  else (f1, i + 1)

/-- Modelled from the spec: the backward re-randomizing pass of the
reference array-seeding procedure, iterated k times. -/
def arrayLoop2 : Nat → (Nat → Nat) → Nat → (Nat → Nat) × Nat
  | 0, f, i => (f, i)
  | k + 1, f, i => arrayLoop2 k (arrayStep2 f i).1 (arrayStep2 f i).2

/-- Modelled from the spec: gmx_rng_init_array first expands the fixed
default seed 19650218, then folds the supplied words in by the forward
pass (max 624 len iterations) and the backward pass (623 iterations), and
finally forces word 0 to 0x80000000 so that the state can never be all
zero; a zero-length array degenerates to the scalar default-seed path. -/
def initArrayState (key : List Nat) : MTState :=
  if key = [] then initState 19650218
  else
    MTState.mk
      (fun x =>
        if x = 0 then 2147483648
        else
          (arrayLoop2 623
            (arrayLoop1 key (max 624 key.length) (initAt 19650218) 1 0).1
            (arrayLoop1 key (max 624 key.length) (initAt 19650218) 1 0).2).1 x)
      624

/-- Modelled from the spec: allocation can fail at construction time only;
the outcome of the allocator is made an explicit boolean parameter, and
gmx_rng_init returns an empty handle exactly when allocation failed. -/
def gmx_rng_init (allocOk : Bool) (seed : Nat) : Option MTState :=
  if allocOk then some (initState seed) else none

/-- Modelled from the spec: gmx_rng_init_array with the allocation outcome
as an explicit boolean parameter. -/
def gmx_rng_init_array (allocOk : Bool) (key : List Nat) : Option MTState :=
  if allocOk then some (initArrayState key) else none

/-- The list of the next n tempered 32-bit outputs of a generator state. -/
def drawList : Nat → MTState → List Nat
  | 0, _ => []
  | n + 1, s => (uniformU32 s).1 :: drawList n (uniformU32 s).2

/-- The generator state after n consecutive 32-bit draws. -/
def applyDraws : Nat → MTState → MTState
  | 0, s => s
  | n + 1, s => applyDraws n (uniformU32 s).2

/-- Modelled from the spec: full generator handle, the engine state plus
the Box-Muller cache, an optional previously computed but unused gaussian
value together with its validity flag. -/
structure GmxRng where
  core : MTState
  hasSaved : Bool
  saved : Real

/-- Modelled from the spec: redraw of the first uniform real while it is
exactly zero, to avoid the logarithm singularity. The C loop is unbounded;
it is modelled with an explicit fuel argument, which is irrelevant as soon
as a nonzero value appears. -/
def drawNonzero : Nat → MTState → Rat × MTState
  | 0, s => uniformReal s
  | n + 1, s =>
      if (uniformReal s).1 = 0 then drawNonzero n (uniformReal s).2
      else uniformReal s

/-- Modelled from the spec: the first member of the Box-Muller pair,
sqrt (-2 ln u1) * cos (2 pi u2). -/
noncomputable def bmCos (u1 u2 : Rat) : Real :=
  Real.sqrt (-2 * Real.log (u1 : Real)) * Real.cos (2 * Real.pi * (u2 : Real))

/-- Modelled from the spec: the second member of the Box-Muller pair,
sqrt (-2 ln u1) * sin (2 pi u2). -/
noncomputable def bmSin (u1 u2 : Rat) : Real :=
  Real.sqrt (-2 * Real.log (u1 : Real)) * Real.sin (2 * Real.pi * (u2 : Real))

/-- Modelled from the spec: gmx_rng_gaussian_real. When the cache holds a
valid spare value it is returned and the cache invalidated without drawing;
otherwise two uniform reals are drawn (the first redrawn while zero), the
cosine member of the Box-Muller pair is returned and the sine member is
cached. -/
noncomputable def gaussianReal (fuel : Nat) (g : GmxRng) : Real × GmxRng :=
  if g.hasSaved then (g.saved, GmxRng.mk g.core false g.saved)
  else
    (bmCos (drawNonzero fuel g.core).1 (uniformReal (drawNonzero fuel g.core).2).1,
     GmxRng.mk (uniformReal (drawNonzero fuel g.core).2).2 true
       (bmSin (drawNonzero fuel g.core).1
         (uniformReal (drawNonzero fuel g.core).2).1))

/-- Modelled from the spec: gmx_rng_gaussian_table reduces one 32-bit draw
to a 14-bit index through the high bits and returns the corresponding entry
of the 2^14-entry inverse-CDF table. The table itself is built from the
inverse error function, which is outside the formalized development, so it
is passed as a parameter; its documented property is that every entry is
bounded in magnitude by 4.0255485. -/
def gaussianTable (table : Nat → Rat) (s : MTState) : Rat × MTState :=
  (table ((uniformU32 s).1 >>> 18), (uniformU32 s).2)

/-- The whole 624-word state vector is zero. -/
def allZero (f : Nat → Nat) : Prop := ∀ i, i < 624 → f i = 0

/-- The effective state is zero: word 0 has a clear top bit and every other
word is zero. These are exactly the state vectors whose regeneration
produces the all-zero vector. -/
def effZero (f : Nat → Nat) : Prop :=
  f 0 < 2147483648 ∧ ∀ i, 0 < i → i < 624 → f i = 0

namespace MergeMp

/-- One molecular-property record of the extra-property input file, the
t_prop structure of g_merge_mp.c: the four fields of a line split on the
bar character. -/
structure TProp where
  iupac : String
  prop : String
  value : String
  ref : String
deriving DecidableEq

/-- One energy entry added by gmx_molprop_add_energy: property name, unit,
parsed value and error. -/
structure EnergyEntry where
  eType : String
  unit : String
  value : Rat
  err : Rat
deriving DecidableEq

/-- One experiment record added by gmx_molprop_add_experiment: reference,
experiment type, and the energies attached to it. -/
structure Experiment where
  ref : String
  eType : String
  energies : List EnergyEntry
deriving DecidableEq

/-- One molecule record as far as add_properties observes and modifies it:
the IUPAC name, which gmx_molprop_get_iupac may fail to provide, and the
list of experiment records. -/
structure MolProp where
  iupac : Option String
  experiments : List Experiment
deriving DecidableEq

/-- Splitting of a character list on a separator, accumulating the current
field in reverse. -/
def splitChars (sep : Char) : List Char → List Char → List (List Char)
  | [], acc => [acc.reverse]
  | c :: rest, acc =>
      if c = sep then acc.reverse :: splitChars sep rest []
      else splitChars sep rest (c :: acc)

/-- The split helper of the support library (not part of this repository
under src): splits a string on the separator character and drops empty
fields, since the C function collapses consecutive separators. -/
def split (sep : Char) (s : String) : List String :=
  ((splitChars sep s.data []).map String.mk).filter (fun t => t ≠ "")

/-- Case-insensitive string equality, the equality kernel of strcasecmp as
used by tp_comp (strcasecmp is a C library routine, not part of this
repository under src). -/
def ciEq (a b : String) : Bool :=
  a.data.map Char.toLower = b.data.map Char.toLower

/-- The property records harvested from the input lines by the reading loop
of add_properties: a line contributes exactly when it splits into at least
four bar-separated fields, and the first four fields become the record. -/
def parseProps (lines : List String) : List TProp :=
  lines.filterMap (fun l =>
    if 4 ≤ (split '|' l).length then
      some (TProp.mk ((split '|' l).getD 0 "") ((split '|' l).getD 1 "")
        ((split '|' l).getD 2 "") ((split '|' l).getD 3 ""))
    else none)

/-- The per-molecule step of add_properties: when the molecule has an IUPAC
name and some record matches it case-insensitively, one experiment of type
minimum is appended carrying one energy entry in kJ/mol; otherwise the
molecule is untouched. The sorted binary search of the C code returns an
unspecified matching record when several match; it is modelled as the
first match. The atof number parser is not part of this repository under
src and is passed as a parameter. -/
def addOneProp (atof : String → Rat) (tps : List TProp) (m : MolProp) :
    MolProp :=
  match m.iupac with
  | none => m
  | some key =>
    match tps.find? (fun tp => ciEq tp.iupac key) with
    | none => m
    | some tp =>
        MolProp.mk m.iupac
          (m.experiments ++
            [Experiment.mk tp.ref "minimum"
              [EnergyEntry.mk tp.prop "kJ/mol" (atof tp.value) 0]])

/-- The add_properties function of g_merge_mp.c: with a null filename it
does nothing at all; otherwise it reads the named file (file access is
modelled by an explicit reading oracle), harvests the property records,
and processes every molecule in order. -/
def add_properties (atof : String → Rat) (readFile : String → List String)
    (fn : Option String) (mps : List MolProp) : List MolProp :=
  match fn with
  | none => mps
  | some name => mps.map (addOneProp atof (parseProps (readFile name)))

end MergeMp

section Bounds

open GmxRandom

theorem pow32eq : (4294967296 : Nat) = 2 ^ 32 := by norm_num

theorem xor_lt32 {a b : Nat} (ha : a < 4294967296) (hb : b < 4294967296) :
    a ^^^ b < 4294967296 := by
  rw [pow32eq] at ha hb ⊢; exact Nat.xor_lt_two_pow ha hb

theorem or_lt32 {a b : Nat} (ha : a < 4294967296) (hb : b < 4294967296) :
    a ||| b < 4294967296 := by
  rw [pow32eq] at ha hb ⊢; exact Nat.or_lt_two_pow ha hb

theorem mtY_lt (a b : Nat) : mtY a b < 4294967296 := by
  unfold mtY
  exact or_lt32 (lt_of_le_of_lt Nat.and_le_right (by norm_num))
    (lt_of_le_of_lt Nat.and_le_right (by norm_num))

theorem mtTw_lt (a b : Nat) : mtTw a b < 4294967296 := by
  unfold mtTw
  refine xor_lt32 (lt_of_le_of_lt ?_ (mtY_lt a b)) ?_
  · rw [Nat.shiftRight_eq_div_pow]; exact Nat.div_le_self _ _
  · split <;> norm_num

theorem twistA_lt {f : Nat → Nat} (hb : Bounded32 f) (i : Nat) :
    twistA f i < 4294967296 :=
  xor_lt32 (hb _) (mtTw_lt _ _)

theorem twistB_lt {f : Nat → Nat} (hb : Bounded32 f) (i : Nat) :
    twistB f i < 4294967296 :=
  xor_lt32 (twistA_lt hb _) (mtTw_lt _ _)

theorem twistC_lt {f : Nat → Nat} (hb : Bounded32 f) (i : Nat) :
    twistC f i < 4294967296 :=
  xor_lt32 (twistB_lt hb _) (mtTw_lt _ _)

theorem twist_bounded {f : Nat → Nat} (hb : Bounded32 f) :
    Bounded32 (twist f) := by
  intro i
  unfold twist
  split
  · exact twistA_lt hb i
  split
  · exact twistB_lt hb i
  split
  · exact twistC_lt hb i
  · exact xor_lt32 (twistB_lt hb _) (mtTw_lt _ _)

theorem shiftRight_lt32 {y : Nat} (n : Nat) (h : y < 4294967296) :
    y >>> n < 4294967296 := by
  rw [Nat.shiftRight_eq_div_pow]
  exact lt_of_le_of_lt (Nat.div_le_self _ _) h

theorem and_mask_lt32 (a m : Nat) (hm : m < 4294967296) :
    a &&& m < 4294967296 :=
  lt_of_le_of_lt Nat.and_le_right hm

theorem temper_lt {y : Nat} (h : y < 4294967296) : temper y < 4294967296 := by
  unfold temper
  have h1 : y ^^^ (y >>> 11) < 4294967296 := xor_lt32 h (shiftRight_lt32 11 h)
  have h2 := xor_lt32 h1 (and_mask_lt32 ((y ^^^ (y >>> 11)) <<< 7) 2636928640
    (by norm_num))
  have h3 := xor_lt32 h2
    (and_mask_lt32 ((y ^^^ y >>> 11 ^^^ (y ^^^ y >>> 11) <<< 7 &&&
      2636928640) <<< 15) 4022730752 (by norm_num))
  exact xor_lt32 h3 (shiftRight_lt32 18 h3)

theorem initAt_bounded (seed : Nat) : Bounded32 (initAt seed) := by
  intro i
  cases i with
  | zero => exact Nat.mod_lt _ (by norm_num)
  | succ n => exact Nat.mod_lt _ (by norm_num)

theorem regenerated_bounded {s : MTState} (hb : Bounded32 s.mt) :
    Bounded32 (regenerated s).mt := by
  unfold regenerated
  split
  · exact twist_bounded hb
  · exact hb

theorem uniformU32_bounded {s : MTState} (hb : Bounded32 s.mt) :
    (uniformU32 s).1 < 4294967296 ∧ Bounded32 (uniformU32 s).2.mt :=
  ⟨temper_lt (regenerated_bounded hb _), regenerated_bounded hb⟩

theorem applyDraws_bounded (n : Nat) {s : MTState} (hb : Bounded32 s.mt) :
    Bounded32 (applyDraws n s).mt := by
  induction n generalizing s with
  | zero => exact hb
  | succ k ih => exact ih (uniformU32_bounded hb).2

end Bounds

section EngineClaims

open GmxRandom

theorem drawList_length (n : Nat) (s : MTState) : (drawList n s).length = n := by
  induction n generalizing s with
  | zero => rfl
  | succ k ih => simp [drawList, ih]

theorem initArrayState_mti (key : List Nat) : (initArrayState key).mti = 624 := by
  unfold initArrayState
  split <;> rfl

theorem uniformReal_mem {s : MTState} (hb : Bounded32 s.mt) :
    0 ≤ (uniformReal s).1 ∧ (uniformReal s).1 < 1 := by
  constructor
  · exact div_nonneg (Nat.cast_nonneg _) (by norm_num)
  · unfold uniformReal
    rw [div_lt_one (by norm_num)]
    exact_mod_cast (uniformU32_bounded hb).1

theorem initArrayState_bounded (key : List Nat) :
    Bounded32 (initArrayState key).mt := by
  have step1 : ∀ f i j, Bounded32 f →
      Bounded32 (arrayStep1 key f i j).1 := by
    intro f i j hb x
    unfold arrayStep1
    simp only
    split <;> simp only <;> (repeat' split) <;>
      first
        | exact Nat.mod_lt _ (by norm_num)
        | exact hb _
  have loop1 : ∀ k f i j, Bounded32 f →
      Bounded32 (arrayLoop1 key k f i j).1 := by
    intro k
    induction k with
    | zero => intro f i j hb; exact hb
    | succ m ih => intro f i j hb; exact ih _ _ _ (step1 f i j hb)
  have step2 : ∀ f i, Bounded32 f → Bounded32 (arrayStep2 f i).1 := by
    intro f i hb x
    unfold arrayStep2
    simp only
    split <;> simp only <;> (repeat' split) <;>
      first
        | exact Nat.mod_lt _ (by norm_num)
        | exact hb _
  have loop2 : ∀ k f i, Bounded32 f → Bounded32 (arrayLoop2 k f i).1 := by
    intro k
    induction k with
    | zero => intro f i hb; exact hb
    | succ m ih => intro f i hb; exact ih _ _ (step2 f i hb)
  unfold initArrayState
  split
  · exact initAt_bounded 19650218
  · intro x
    simp only
    split
    · norm_num
    · exact loop2 _ _ _ (loop1 _ _ _ _ (initAt_bounded 19650218)) x

/-- Claim C1: for every 32-bit seed the output sequence is a function of
the seed alone; two runs with equal seeds obtain bit-for-bit identical
sequences of N * 2 = 1248 consecutive tempered 32-bit draws. -/
theorem c1_fixed_seed_reproducible (s1 s2 : Nat) (h : s1 = s2) :
    (drawList 1248 (initState s1)).length = 1248 ∧
    drawList 1248 (initState s1) = drawList 1248 (initState s2) := by
  subst h
  exact ⟨drawList_length 1248 _, rfl⟩

theorem c1_fixed_seed_reproducible_w :
    (drawList 1248 (initState 1)).length = 1248 ∧
    drawList 1248 (initState 1) = drawList 1248 (initState 1) :=
  c1_fixed_seed_reproducible 1 1 rfl

/-- Claim C3: on every generator reachable from either seeding path by any
number of draws, the uniform real output is nonnegative and strictly below
one, the scaling divisor 4294967296 strictly exceeding the largest word
4294967295. -/
theorem c3_uniform_real_range (seed : Nat) (key : List Nat) (n : Nat) :
    (0 ≤ (uniformReal (applyDraws n (initState seed))).1 ∧
      (uniformReal (applyDraws n (initState seed))).1 < 1) ∧
    (0 ≤ (uniformReal (applyDraws n (initArrayState key))).1 ∧
      (uniformReal (applyDraws n (initArrayState key))).1 < 1) ∧
    (4294967295 : Nat) < 4294967296 :=
  ⟨uniformReal_mem (applyDraws_bounded n (initAt_bounded seed)),
   uniformReal_mem (applyDraws_bounded n (initArrayState_bounded key)),
   by norm_num⟩

/-- Claim C6: construction returns an empty handle exactly when allocation
fails, every seed value including zero is accepted, and the drawing
operations are total functions of the handle. -/
theorem c6_failure_only_alloc (ok : Bool) (seed : Nat) (key : List Nat) :
    (gmx_rng_init ok seed = none ↔ ok = false) ∧
    (gmx_rng_init_array ok key = none ↔ ok = false) ∧
    (gmx_rng_init true seed).isSome = true ∧
    (gmx_rng_init true 0).isSome = true ∧
    (gmx_rng_init_array true key).isSome = true ∧
    (∀ s : MTState, ∃ v t, uniformU32 s = (v, t)) ∧
    (∀ s : MTState, ∃ v t, uniformReal s = (v, t)) := by
  refine ⟨?_, ?_, ?_, ?_, ?_, fun s => ⟨_, _, rfl⟩, fun s => ⟨_, _, rfl⟩⟩ <;>
    cases ok <;> simp [gmx_rng_init, gmx_rng_init_array]

/-- Claim C7: array seeding with a zero-length seed array produces the
same output sequence as scalar seeding with the fixed default seed
19650218. -/
theorem c7_empty_array_is_default (n : Nat) :
    drawList n (initArrayState []) = drawList n (initState 19650218) := rfl

/-- Claim C8: the cursor stays in the range 0..624 after every operation;
a draw finding the cursor at 624 first regenerates the whole vector by the
twisted recurrence, whose taps sit at offsets 1 and 397, resets the cursor
to 0, and therefore reads position 0; a draw finding the cursor below 624
reads the vector in place, so no draw ever reads past the state vector. -/
theorem c8_cursor_in_range (s : MTState) (seed : Nat) (key : List Nat)
    (f : Nat → Nat) (i : Nat) :
    (initState seed).mti ≤ 624 ∧
    (initArrayState key).mti ≤ 624 ∧
    (s.mti ≤ 624 → (regenerated s).mti < 624 ∧ (uniformU32 s).2.mti ≤ 624) ∧
    (s.mti = 624 → (regenerated s).mt = twist s.mt ∧
      (regenerated s).mti = 0 ∧ (uniformU32 s).2.mti = 1) ∧
    (s.mti < 624 → regenerated s = s) ∧
    (i < 227 → twist f i = f (i + 397) ^^^ mtTw (f i) (f (i + 1))) := by
  refine ⟨le_refl _, le_of_eq (initArrayState_mti key), ?_, ?_, ?_, ?_⟩
  · intro h
    unfold uniformU32 regenerated
    split <;> simp
    omega
  · intro h
    unfold uniformU32 regenerated
    rw [if_pos (by omega)]
    exact ⟨rfl, rfl, rfl⟩
  · intro h
    unfold regenerated
    rw [if_neg (by omega)]
  · intro h
    unfold twist
    rw [if_pos h]
    rfl

theorem c8_cursor_in_range_w :
    (regenerated (MTState.mk (fun _ => 5) 624)).mti < 624 ∧
    (uniformU32 (MTState.mk (fun _ => 5) 624)).2.mti ≤ 624 ∧
    (regenerated (MTState.mk (fun _ => 5) 624)).mt = twist (fun _ => 5) ∧
    regenerated (MTState.mk (fun _ => 5) 3) = MTState.mk (fun _ => 5) 3 ∧
    twist (fun _ => 5) 0 = 5 ^^^ mtTw 5 5 := by
  have h := c8_cursor_in_range (MTState.mk (fun _ => 5) 624) 0 []
    (fun _ => 5) 0
  have h2 := c8_cursor_in_range (MTState.mk (fun _ => 5) 3) 0 []
    (fun _ => 5) 0
  exact ⟨(h.2.2.1 (by decide)).1, (h.2.2.1 (by decide)).2,
    (h.2.2.2.1 rfl).1, h2.2.2.2.2.1 (by decide),
    h.2.2.2.2.2 (by decide)⟩

end EngineClaims

section GaussianClaims

open GmxRandom

/-- Claim C5: on every generator reachable from the scalar or the array
seeding path, the table-lookup gaussian draw returns an entry of the
2^14-entry table, so its magnitude is bounded by the documented maximum
4.0255485 and the result always lies within -4.0255486 .. 4.0255486. -/
theorem c5_table_lookup_bounded (table : Nat → Rat) (seed : Nat)
    (key : List Nat) (n : Nat)
    (ht : ∀ i, i < 16384 → |table i| ≤ 4.0255485) :
    (|(gaussianTable table (applyDraws n (initState seed))).1| ≤ 4.0255485 ∧
      -4.0255486 ≤ (gaussianTable table (applyDraws n (initState seed))).1 ∧
      (gaussianTable table (applyDraws n (initState seed))).1 ≤ 4.0255486) ∧
    (|(gaussianTable table (applyDraws n (initArrayState key))).1| ≤
        4.0255485 ∧
      -4.0255486 ≤ (gaussianTable table (applyDraws n (initArrayState key))).1 ∧
      (gaussianTable table (applyDraws n (initArrayState key))).1 ≤
        4.0255486) := by
  have main : ∀ s : MTState, Bounded32 s.mt →
      |(gaussianTable table s).1| ≤ 4.0255485 ∧
      -4.0255486 ≤ (gaussianTable table s).1 ∧
      (gaussianTable table s).1 ≤ 4.0255486 := by
    intro s hb
    have hu := (uniformU32_bounded hb).1
    have hidx : (uniformU32 s).1 >>> 18 < 16384 := by
      rw [Nat.shiftRight_eq_div_pow]
      exact Nat.div_lt_of_lt_mul (by calc (uniformU32 s).1 < 4294967296 := hu
        _ = 2 ^ 18 * 16384 := by norm_num)
    have h1 : |(gaussianTable table s).1| ≤ 4.0255485 := ht _ hidx
    have h2 := abs_le.mp h1
    exact ⟨h1, by linarith [h2.1], by linarith [h2.2]⟩
  exact ⟨main _ (applyDraws_bounded n (initAt_bounded seed)),
    main _ (applyDraws_bounded n (initArrayState_bounded key))⟩

theorem c5_table_lookup_bounded_w :
    (∀ i, i < 16384 → |(fun _ => (0 : Rat)) i| ≤ 4.0255485) ∧
    |(gaussianTable (fun _ => (0 : Rat)) (applyDraws 0 (initState 0))).1| ≤
      4.0255485 ∧
    -4.0255486 ≤
      (gaussianTable (fun _ => (0 : Rat)) (applyDraws 0 (initState 0))).1 ∧
    (gaussianTable (fun _ => (0 : Rat)) (applyDraws 0 (initState 0))).1 ≤
      4.0255486 := by
  have ht : ∀ i, i < 16384 → |(fun _ => (0 : Rat)) i| ≤ 4.0255485 := by
    intro i _
    norm_num
  exact ⟨ht, (c5_table_lookup_bounded (fun _ => 0) 0 [] 0 ht).1⟩

/-- Concrete generator handle with an invalid gaussian cache, used to
instantiate the gaussian pairing theorem. -/
def gW : GmxRng := GmxRng.mk (MTState.mk (fun _ => 1) 0) false 0

/-- Claim C4: with a valid cache, gmx_rng_gaussian_real returns the cached
value, invalidates the cache and leaves the engine untouched; with an
invalid cache and a nonzero first uniform draw it consumes exactly two
uniform draws, returns the cosine member of the Box-Muller pair and caches
the sine member, so that the following call returns the cached value
without advancing the engine: two consecutive calls consume exactly two
underlying uniform draws. -/
theorem c4_gaussian_pair_draws (n : Nat) (g : GmxRng) :
    (g.hasSaved = true →
      gaussianReal (n + 1) g = (g.saved, GmxRng.mk g.core false g.saved)) ∧
    (g.hasSaved = false → (uniformReal g.core).1 ≠ 0 →
      gaussianReal (n + 1) g =
        (bmCos (uniformReal g.core).1 (uniformReal ((uniformReal g.core).2)).1,
         GmxRng.mk (uniformReal ((uniformReal g.core).2)).2 true
           (bmSin (uniformReal g.core).1
             (uniformReal ((uniformReal g.core).2)).1)) ∧
      (gaussianReal (n + 1) (gaussianReal (n + 1) g).2).1 =
        bmSin (uniformReal g.core).1 (uniformReal ((uniformReal g.core).2)).1 ∧
      (gaussianReal (n + 1) (gaussianReal (n + 1) g).2).2.core =
        (uniformReal ((uniformReal g.core).2)).2 ∧
      (gaussianReal (n + 1) (gaussianReal (n + 1) g).2).2.hasSaved = false) := by
  constructor
  · intro h
    unfold gaussianReal
    rw [if_pos h]
  · intro h hnz
    have hdraw : drawNonzero (n + 1) g.core = uniformReal g.core := by
      unfold drawNonzero
      rw [if_neg hnz]
    have h1 : gaussianReal (n + 1) g =
        (bmCos (uniformReal g.core).1
          (uniformReal ((uniformReal g.core).2)).1,
         GmxRng.mk (uniformReal ((uniformReal g.core).2)).2 true
           (bmSin (uniformReal g.core).1
             (uniformReal ((uniformReal g.core).2)).1)) := by
      unfold gaussianReal
      rw [if_neg (by simp [h]), hdraw]
    refine ⟨h1, ?_, ?_, ?_⟩ <;> rw [h1] <;> unfold gaussianReal <;> rfl

theorem c4_gaussian_pair_draws_w :
    gW.hasSaved = false ∧
    (uniformReal gW.core).1 ≠ 0 ∧
    gaussianReal 1 gW =
      (bmCos (uniformReal gW.core).1 (uniformReal ((uniformReal gW.core).2)).1,
       GmxRng.mk (uniformReal ((uniformReal gW.core).2)).2 true
         (bmSin (uniformReal gW.core).1
           (uniformReal ((uniformReal gW.core).2)).1)) ∧
    (gaussianReal 1 (gaussianReal 1 gW).2).2.core =
      (uniformReal ((uniformReal gW.core).2)).2 ∧
    (gaussianReal 1 (gaussianReal 1 gW).2).2.hasSaved = false := by
  have h0 : gW.hasSaved = false := rfl
  have hnz : (uniformReal gW.core).1 ≠ 0 := by
    have hu : (uniformU32 gW.core).1 ≠ 0 := by decide
    unfold uniformReal
    exact div_ne_zero (Nat.cast_ne_zero.mpr hu) (by norm_num)
  have h := (c4_gaussian_pair_draws 0 gW).2 h0 hnz
  exact ⟨h0, hnz, h.1, h.2.2.1, h.2.2.2⟩

end GaussianClaims

section NonZeroInvariant

open GmxRandom

theorem or_eq_zero {a b : Nat} (h : a ||| b = 0) : a = 0 ∧ b = 0 := by
  have hbit : ∀ i, a.testBit i = false ∧ b.testBit i = false := by
    intro i
    have h2 : (a ||| b).testBit i = Nat.testBit 0 i := by rw [h]
    simp only [Nat.testBit_or, Nat.zero_testBit, Bool.or_eq_false_iff] at h2
    exact h2
  exact ⟨Nat.eq_of_testBit_eq (fun i => by simp [(hbit i).1]),
    Nat.eq_of_testBit_eq (fun i => by simp [(hbit i).2])⟩

theorem mtTw_eq_zero {a b : Nat} (h : mtTw a b = 0) : mtY a b = 0 := by
  have h32 := mtY_lt a b
  unfold mtTw at h
  rw [Nat.shiftRight_one] at h
  by_cases hp : mtY a b % 2 = 1
  · rw [if_pos hp] at h
    have h2 := Nat.xor_eq_zero.mp h
    omega
  · rw [if_neg hp] at h
    have h2 := Nat.xor_eq_zero.mp h
    omega

theorem mtY_zero {a b : Nat} (h : mtY a b = 0) :
    a &&& 2147483648 = 0 ∧ b &&& 2147483647 = 0 := by
  unfold mtY at h
  exact or_eq_zero h

theorem eq_zero_of_masks {a : Nat} (h32 : a < 4294967296)
    (hU : a &&& 2147483648 = 0) (hL : a &&& 2147483647 = 0) : a = 0 := by
  have h1 : a &&& (2 ^ 31 - 1) = a % 2 ^ 31 := Nat.and_pow_two_sub_one_eq_mod a 31
  rw [show ((2 : Nat) ^ 31 - 1) = 2147483647 by norm_num,
    show ((2 : Nat) ^ 31) = 2147483648 by norm_num] at h1
  have h2 : a % 2147483648 = 0 := by omega
  have h3 : a = 0 ∨ a = 2147483648 := by omega
  rcases h3 with h | h
  · exact h
  · subst h
    exact absurd hU (by decide)

theorem lt_2_31_of_mask {a : Nat} (h32 : a < 4294967296)
    (hU : a &&& 2147483648 = 0) : a < 2147483648 := by
  have h3 : a &&& 2 ^ 31 = (a.testBit 31).toNat * 2 ^ 31 := Nat.and_two_pow a 31
  rw [show ((2 : Nat) ^ 31) = 2147483648 by norm_num] at h3
  rw [hU] at h3
  have hb : a.testBit 31 = false := by
    rcases Bool.eq_false_or_eq_true (a.testBit 31) with hb | hb
    · rw [hb] at h3
      simp at h3
    · exact hb
  rw [Nat.testBit_to_div_mod] at hb
  simp only [decide_eq_false_iff_not] at hb
  rw [show ((2 : Nat) ^ 31) = 2147483648 by norm_num] at hb
  omega

theorem twist_low {f : Nat → Nat} {i : Nat} (h : i < 227) :
    twist f i = f (i + 397) ^^^ mtTw (f i) (f (i + 1)) := by
  unfold twist
  rw [if_pos h]
  rfl

theorem twist_mid {f : Nat → Nat} {i : Nat} (h1 : 227 ≤ i) (h2 : i ≤ 622) :
    twist f i = twist f (i - 227) ^^^ mtTw (f i) (f (i + 1)) := by
  simp only [twist]
  rcases Nat.lt_or_ge i 454 with hc | hc
  · rw [if_neg (by omega : ¬ i < 227), if_pos hc,
      if_pos (by omega : i - 227 < 227)]
    rfl
  · rw [if_neg (by omega : ¬ i < 227), if_neg (by omega : ¬ i < 454),
      if_pos (by omega : i < 623), if_neg (by omega : ¬ i - 227 < 227),
      if_pos (by omega : i - 227 < 454)]
    rfl

theorem twist_last (f : Nat → Nat) :
    twist f 623 = twist f 396 ^^^ mtTw (f 623) (twist f 0) := by
  simp only [twist]
  rw [if_neg (by norm_num : ¬ (623 : Nat) < 227),
    if_neg (by norm_num : ¬ (623 : Nat) < 454),
    if_neg (by norm_num : ¬ (623 : Nat) < 623),
    if_neg (by norm_num : ¬ (396 : Nat) < 227),
    if_pos (by norm_num : (396 : Nat) < 454),
    if_pos (by norm_num : (0 : Nat) < 227)]

theorem effZero_pre {f : Nat → Nat} (hb : Bounded32 f)
    (hz : effZero (twist f)) : effZero f := by
  obtain ⟨hz0, hz1⟩ := hz
  have stepA : ∀ i, 228 ≤ i → i ≤ 622 → mtTw (f i) (f (i + 1)) = 0 := by
    intro i h1 h2
    have e := twist_mid (f := f) (i := i) (by omega) h2
    rw [hz1 i (by omega) (by omega), hz1 (i - 227) (by omega) (by omega)] at e
    simpa using e.symm
  have hA : ∀ i, 228 ≤ i → i ≤ 622 →
      f i &&& 2147483648 = 0 ∧ f (i + 1) &&& 2147483647 = 0 := by
    intro i h1 h2
    exact mtY_zero (mtTw_eq_zero (stepA i h1 h2))
  have e623 := twist_last f
  have hB : f 623 &&& 2147483648 = 0 ∧ twist f 0 &&& 2147483647 = 0 := by
    rw [hz1 623 (by omega) (by omega), hz1 396 (by omega) (by omega)] at e623
    exact mtY_zero (mtTw_eq_zero (by simpa using e623.symm))
  have hg0 : twist f 0 = 0 := by
    have h1 : twist f 0 &&& (2 ^ 31 - 1) = twist f 0 % 2 ^ 31 :=
      Nat.and_pow_two_sub_one_eq_mod _ 31
    rw [show ((2 : Nat) ^ 31 - 1) = 2147483647 by norm_num,
      show ((2 : Nat) ^ 31) = 2147483648 by norm_num] at h1
    rw [hB.2] at h1
    omega
  have h227 : mtTw (f 227) (f 228) = 0 := by
    have e := twist_mid (f := f) (i := 227) (by omega) (by omega)
    rw [hz1 227 (by omega) (by omega), show (227 : Nat) - 227 = 0 from rfl,
      hg0] at e
    simpa using e.symm
  have hU2 : ∀ i, 227 ≤ i → i ≤ 622 → f i &&& 2147483648 = 0 := by
    intro i h1 h2
    rcases eq_or_lt_of_le h1 with he | hl
    · rw [← he]
      exact (mtY_zero (mtTw_eq_zero h227)).1
    · exact (hA i (by omega) h2).1
  have hL2 : ∀ i, 228 ≤ i → i ≤ 623 → f i &&& 2147483647 = 0 := by
    intro i h1 h2
    rcases eq_or_lt_of_le h1 with he | hl
    · rw [← he]
      exact (mtY_zero (mtTw_eq_zero h227)).2
    · have h3 := (hA (i - 1) (by omega) (by omega)).2
      rw [show i - 1 + 1 = i by omega] at h3
      exact h3
  have hzero_hi : ∀ i, 397 ≤ i → i ≤ 623 → f i = 0 := by
    intro i h1 h2
    rcases Nat.lt_or_ge i 623 with hl | hge
    · exact eq_zero_of_masks (hb i) (hU2 i (by omega) (by omega))
        (hL2 i (by omega) (by omega))
    · have he : i = 623 := by omega
      subst he
      exact eq_zero_of_masks (hb 623) hB.1 (hL2 623 (by omega) (by omega))
  have hC : ∀ i, i ≤ 226 →
      f i &&& 2147483648 = 0 ∧ f (i + 1) &&& 2147483647 = 0 := by
    intro i h2
    have e := twist_low (f := f) (show i < 227 by omega)
    have hz' : twist f i = 0 := by
      rcases Nat.eq_zero_or_pos i with h0 | h0
      · rw [h0]
        exact hg0
      · exact hz1 i h0 (by omega)
    rw [hz', hzero_hi (i + 397) (by omega) (by omega)] at e
    exact mtY_zero (mtTw_eq_zero (by simpa using e.symm))
  constructor
  · exact lt_2_31_of_mask (hb 0) (hC 0 (by omega)).1
  · intro i h0 h624
    rcases Nat.lt_or_ge i 397 with hlow | hhi
    · rcases Nat.lt_or_ge i 228 with hvlow | hmid
      · have hLm : f i &&& 2147483647 = 0 := by
          have h3 := (hC (i - 1) (by omega)).2
          rw [show i - 1 + 1 = i by omega] at h3
          exact h3
        have hUm : f i &&& 2147483648 = 0 := by
          rcases Nat.lt_or_ge i 227 with hi2 | hi2
          · exact (hC i (by omega)).1
          · have he : i = 227 := by omega
            rw [he]
            exact (mtY_zero (mtTw_eq_zero h227)).1
        exact eq_zero_of_masks (hb i) hUm hLm
      · exact eq_zero_of_masks (hb i) (hU2 i (by omega) (by omega))
          (hL2 i hmid (by omega))
    · exact hzero_hi i hhi (by omega)

theorem uniformU32_mt_cases (s : MTState) :
    (uniformU32 s).2.mt = s.mt ∨ (uniformU32 s).2.mt = twist s.mt := by
  unfold uniformU32 regenerated
  split
  · right
    rfl
  · left
    rfl

theorem notEffZero_draw {s : MTState} (hb : Bounded32 s.mt)
    (hz : ¬ effZero s.mt) : ¬ effZero (uniformU32 s).2.mt := by
  rcases uniformU32_mt_cases s with h | h <;> rw [h]
  · exact hz
  · intro he
    exact hz (effZero_pre hb he)

theorem notEffZero_applyDraws (n : Nat) {s : MTState} (hb : Bounded32 s.mt)
    (hz : ¬ effZero s.mt) : ¬ effZero (applyDraws n s).mt := by
  induction n generalizing s with
  | zero => exact hz
  | succ k ih => exact ih (uniformU32_bounded hb).2 (notEffZero_draw hb hz)

theorem initState_notEffZero (seed : Nat) : ¬ effZero (initState seed).mt := by
  rintro ⟨h0, h⟩
  have h1 := h 1 (by omega) (by omega)
  have h2 := h 2 (by omega) (by omega)
  have e : initAt seed 2 =
      (1812433253 * (initAt seed 1 ^^^ (initAt seed 1 >>> 30)) + 2) %
        4294967296 := rfl
  rw [show (initState seed).mt = initAt seed from rfl] at h1 h2
  rw [h1] at e
  simp at e
  rw [h2] at e
  exact absurd e (by decide)

theorem initArrayState_notEffZero (key : List Nat) :
    ¬ effZero (initArrayState key).mt := by
  by_cases hk : key = []
  · rw [hk]
    exact initState_notEffZero 19650218
  · rintro ⟨h0, _⟩
    unfold initArrayState at h0
    rw [if_neg hk] at h0
    simp at h0

theorem allZero_effZero {f : Nat → Nat} (h : allZero f) : effZero f := by
  constructor
  · rw [h 0 (by omega)]
    norm_num
  · intro i h0 h6
    exact h i h6

/-- Claim C2: for every scalar seed (including 0) and every array seed
(including an all-zero or empty array) the seeded state vector is not all
zero, and no number of subsequent draws ever makes all 624 state words
zero simultaneously. -/
theorem c2_never_all_zero (seed : Nat) (key : List Nat) (n : Nat) :
    ¬ allZero (applyDraws n (initState seed)).mt ∧
    ¬ allZero (applyDraws n (initArrayState key)).mt := by
  constructor
  · intro hz
    exact notEffZero_applyDraws n (initAt_bounded seed)
      (initState_notEffZero seed) (allZero_effZero hz)
  · intro hz
    exact notEffZero_applyDraws n (initArrayState_bounded key)
      (initArrayState_notEffZero key) (allZero_effZero hz)

end NonZeroInvariant

section MergeClaims

open MergeMp

theorem map_getD (f : MolProp → MolProp) (l : List MolProp) (i : Nat)
    (d : MolProp) (h : i < l.length) :
    (l.map f).getD i d = f (l.getD i d) := by
  rw [List.getD_eq_getElem?_getD, List.getD_eq_getElem?_getD,
    List.getElem?_map, List.getElem?_eq_getElem h]
  simp

theorem getD_out (l : List MolProp) (i : Nat) (d : MolProp)
    (h : l.length ≤ i) : l.getD i d = d := by
  rw [List.getD_eq_getElem?_getD, List.getElem?_eq_none h]
  rfl

theorem parseProps_mem {lines : List String} {tp : TProp}
    (h : tp ∈ parseProps lines) :
    ∃ l, l ∈ lines ∧ 4 ≤ (split '|' l).length ∧
      tp.iupac = (split '|' l).getD 0 "" := by
  unfold parseProps at h
  rw [List.mem_filterMap] at h
  obtain ⟨l, hl, he⟩ := h
  by_cases hc : 4 ≤ (split '|' l).length
  · rw [if_pos hc] at he
    injection he with he2
    subst he2
    exact ⟨l, hl, hc, rfl⟩
  · rw [if_neg hc] at he
    exact absurd he (by simp)

theorem addOneProp_cases (atof : String → Rat) (tps : List TProp)
    (m : MolProp) :
    addOneProp atof tps m = m ∨
    (∃ key tp, m.iupac = some key ∧
      tps.find? (fun t => ciEq t.iupac key) = some tp ∧
      addOneProp atof tps m = MolProp.mk m.iupac
        (m.experiments ++ [Experiment.mk tp.ref "minimum"
          [EnergyEntry.mk tp.prop "kJ/mol" (atof tp.value) 0]])) := by
  obtain ⟨iu, exps⟩ := m
  rcases iu with _ | key
  · left
    rfl
  · rcases hf : tps.find? (fun t => ciEq t.iupac key) with _ | tp
    · left
      unfold addOneProp
      simp only [hf]
    · right
      refine ⟨key, tp, rfl, hf, ?_⟩
      unfold addOneProp
      simp only [hf]

/-- Claim C10: add_properties with a null filename reads no file and
changes no molecule record; with a filename, a molecule record changes
only when its IUPAC name matches, case-insensitively, the first field of
an input line that split into at least four bar-separated fields; and at
most one experiment record is appended per molecule per call. -/
theorem c10_add_properties_frame (atof : String → Rat)
    (rf rf2 : String → List String) (fn : Option String)
    (mps : List MolProp) (i : Nat) :
    add_properties atof rf none mps = mps ∧
    add_properties atof rf none mps = add_properties atof rf2 none mps ∧
    ((add_properties atof rf fn mps).getD i (MolProp.mk none []) ≠
        mps.getD i (MolProp.mk none []) →
      ∃ name, fn = some name ∧
      ∃ key, (mps.getD i (MolProp.mk none [])).iupac = some key ∧
      ∃ l, l ∈ rf name ∧ 4 ≤ (split '|' l).length ∧
        ciEq ((split '|' l).getD 0 "") key = true) ∧
    ((add_properties atof rf fn mps).getD i
        (MolProp.mk none [])).experiments.length ≤
      ((mps.getD i (MolProp.mk none [])).experiments).length + 1 := by
  refine ⟨rfl, rfl, ?_, ?_⟩
  · intro hne
    cases fn with
    | none => exact absurd rfl hne
    | some name =>
      refine ⟨name, rfl, ?_⟩
      by_cases hi : i < mps.length
      · rw [show add_properties atof rf (some name) mps =
            mps.map (addOneProp atof (parseProps (rf name))) from rfl,
          map_getD _ _ _ _ hi] at hne
        rcases addOneProp_cases atof (parseProps (rf name))
            (mps.getD i (MolProp.mk none [])) with h | ⟨key, tp, hk, hf, h⟩
        · exact absurd h hne
        · refine ⟨key, hk, ?_⟩
          have htp : tp ∈ parseProps (rf name) :=
            List.mem_of_find?_eq_some hf
          have hp : ciEq tp.iupac key = true := by
            simpa using List.find?_some hf
          obtain ⟨l, hl, hlen, hiu⟩ := parseProps_mem htp
          refine ⟨l, hl, hlen, ?_⟩
          rw [← hiu]
          exact hp
      · rw [show add_properties atof rf (some name) mps =
            mps.map (addOneProp atof (parseProps (rf name))) from rfl,
          getD_out _ _ _ (by simpa using Nat.le_of_not_lt hi),
          getD_out _ _ _ (Nat.le_of_not_lt hi)] at hne
        exact absurd rfl hne
  · cases fn with
    | none =>
      show (mps.getD i (MolProp.mk none [])).experiments.length ≤
        (mps.getD i (MolProp.mk none [])).experiments.length + 1
      exact Nat.le_succ _
    | some name =>
      by_cases hi : i < mps.length
      · rw [show add_properties atof rf (some name) mps =
            mps.map (addOneProp atof (parseProps (rf name))) from rfl,
          map_getD _ _ _ _ hi]
        rcases addOneProp_cases atof (parseProps (rf name))
            (mps.getD i (MolProp.mk none [])) with h | ⟨key, tp, hk, hf, h⟩ <;>
          rw [h] <;> simp
      · rw [show add_properties atof rf (some name) mps =
            mps.map (addOneProp atof (parseProps (rf name))) from rfl,
          getD_out _ _ _ (by simpa using Nat.le_of_not_lt hi)]
        exact Nat.zero_le _

theorem c10_add_properties_frame_w :
    (add_properties (fun _ => 0) (fun _ => ["ethanol|DeltaHf|-277.0|ref1"])
        (some "x") [MolProp.mk (some "Ethanol") []]).getD 0
        (MolProp.mk none []) ≠
      ([MolProp.mk (some "Ethanol") []]).getD 0 (MolProp.mk none []) ∧
    (∃ name, (some "x" : Option String) = some name ∧
      ∃ key, (([MolProp.mk (some "Ethanol") []]).getD 0
          (MolProp.mk none [])).iupac = some key ∧
      ∃ l, l ∈ (fun (_ : String) => ["ethanol|DeltaHf|-277.0|ref1"]) name ∧
        4 ≤ (split '|' l).length ∧
        ciEq ((split '|' l).getD 0 "") key = true) := by
  have hne : (add_properties (fun _ => 0)
      (fun _ => ["ethanol|DeltaHf|-277.0|ref1"]) (some "x")
      [MolProp.mk (some "Ethanol") []]).getD 0 (MolProp.mk none []) ≠
      ([MolProp.mk (some "Ethanol") []]).getD 0 (MolProp.mk none []) := by
    decide
  exact ⟨hne, ((c10_add_properties_frame (fun _ => 0)
    (fun _ => ["ethanol|DeltaHf|-277.0|ref1"])
    (fun _ => ["ethanol|DeltaHf|-277.0|ref1"]) (some "x")
    [MolProp.mk (some "Ethanol") []] 0).2.2.1 hne)⟩

end MergeClaims


